import Mathlib

/-!
Verification of the transaction-token derivation engine of this repository.

The TypeScript sources are shallowly embedded:
* JavaScript numbers are modelled as exact rationals `ℚ` (or `Nat`/`ℤ` where
  the code only ever holds integers); `Math.floor` is `Int.floor`,
  `x.toFixed(2)` / `Math.round` are half-up roundings.
* `Uint8Array` is a fixed-length `List Nat` whose writes truncate mod 256 and
  silently ignore out-of-bounds indices, exactly as JavaScript typed arrays do.
* `while` loops without a structural termination measure (the cubic-bezier
  bisection, the fractional hex-digit loop) take an explicit fuel argument and
  return `Option`, where `none` marks fuel exhaustion (a model artifact, never
  a behaviour of the source).  The integer hex-digit loop terminates in at
  most `⌊x⌋` iterations, so it is run with that much fuel and its exhaustion
  branch is unreachable.
* thrown exceptions are `Except.error`; `try/catch` is a `match` on the
  `Except`.
* external primitives (SHA-256, `Math.random`, `Date.now`, `Math.cos`/`sin`)
  are parameters of the definitions that consume them.
-/

/- Restore default reducibility of the rational-number operations so that
concrete evaluations of the embedded code reduce inside `decide`/`rfl`. -/

attribute [local semireducible] Rat.mul Rat.inv Rat.add Rat.sub

namespace Utils

/-- One hex digit as produced by `floatToHex` in `src/helpers/transaction/utils.ts`:
digits above 9 become `String.fromCharCode(d + 55)` (uppercase `A`-`F`),
others `d.toString()`. -/
def hexDigit (d : ℤ) : Char :=
  if d > 9 then Char.ofNat (d.toNat + 55) else Char.ofNat (d.toNat + 48)

/-- Integer-part digit loop of `floatToHex`.  The source keeps a `quotient`
variable, initialised to `Math.floor(x)` and tested against `0` at the top of
every iteration; inside the loop it recomputes `quotient = Math.floor(x/16)`,
emits `Math.floor(x - quotient*16)` as a digit, and reassigns `x = quotient`.
Since the reassigned `x` is an integer, the test at the top of every later
iteration is exactly `⌊x⌋ > 0` for the current `x`, so the loop is this
recursion.  The first component is the digit list; the second records every
value the loop guard tested, in order (the instrumentation used by claim C6).
The `fuel = 0` branch is unreachable when `⌊x⌋.toNat ≤ fuel`
(`floatToHexIntGo_fuel_irrelevant` below): each iteration at least halves
`⌊x⌋`, so `⌊x⌋` iterations always suffice. -/
def floatToHexIntGo : Nat → ℚ → List Char → List Char × List ℤ
  | 0, x, acc => (acc, [⌊x⌋])
  | fuel + 1, x, acc =>
    if ⌊x⌋ ≤ 0 then (acc, [⌊x⌋])
    else
      let q := ⌊x / 16⌋
      let r := ⌊x - (q : ℚ) * 16⌋
      let rr := floatToHexIntGo fuel (q : ℚ) (hexDigit r :: acc)
      (rr.1, ⌊x⌋ :: rr.2)

/-- The integer-part loop run with (always sufficient) fuel `⌊x⌋.toNat`. -/
def floatToHexIntAux (x : ℚ) (acc : List Char) : List Char × List ℤ :=
  floatToHexIntGo ⌊x⌋.toNat x acc

/-- Fractional-part digit loop of `floatToHex`: while `fraction > 0`,
multiply by 16, emit the integer part as a digit, keep the remainder.
The source has no bound on this loop; `fuel` is the model's bound and
`none` marks exhaustion. -/
def floatToHexFracLoop : Nat → ℚ → List Char → Option (List Char)
  | fuel, fraction, acc =>
    if fraction > 0 then
      match fuel with
      | 0 => none
      | fuel' + 1 =>
        let f16 := fraction * 16
        let integer := ⌊f16⌋
        floatToHexFracLoop fuel' (f16 - (integer : ℚ)) (acc ++ [hexDigit integer])
    else some acc

/-- `floatToHex` from `src/helpers/transaction/utils.ts`. -/
def floatToHex (x : ℚ) (fuel : Nat) : Option String :=
  let quotient := ⌊x⌋
  let fraction := x - (quotient : ℚ)
  let intDigits := (floatToHexIntAux x []).1
  if fraction = 0 then some (String.mk intDigits)
  else (floatToHexFracLoop fuel fraction (intDigits ++ ['.'])).map String.mk

/-- `isOdd` from `src/helpers/transaction/utils.ts`: `num % 2 ? -1.0 : 0.0`. -/
def isOdd (num : Nat) : ℚ :=
  if num % 2 = 0 then 0 else -1

/-- The base64 alphabet used by `btoa`. -/
def base64Alphabet : List Char :=
  "ABCDEFGHIJKLMNOPQRSTUVWXYZabcdefghijklmnopqrstuvwxyz0123456789+/".toList

/-- Base64-encode a byte list, three bytes at a time, with `=` padding:
the semantics of `btoa(String.fromCharCode(...bytes))` used by
`base64Encode` in `src/helpers/transaction/utils.ts`. -/
def base64EncodeList : List Nat → List Char
  | [] => []
  | [b1] =>
    [base64Alphabet.getD (b1 >>> 2) 'A',
     base64Alphabet.getD ((b1 &&& 3) <<< 4) 'A', '=', '=']
  | [b1, b2] =>
    [base64Alphabet.getD (b1 >>> 2) 'A',
     base64Alphabet.getD (((b1 &&& 3) <<< 4) ||| (b2 >>> 4)) 'A',
     base64Alphabet.getD ((b2 &&& 15) <<< 2) 'A', '=']
  | b1 :: b2 :: b3 :: rest =>
    [base64Alphabet.getD (b1 >>> 2) 'A',
     base64Alphabet.getD (((b1 &&& 3) <<< 4) ||| (b2 >>> 4)) 'A',
     base64Alphabet.getD (((b2 &&& 15) <<< 2) ||| (b3 >>> 6)) 'A',
     base64Alphabet.getD (b3 &&& 63) 'A'] ++ base64EncodeList rest

/-- `base64Encode` from `src/helpers/transaction/utils.ts`, on byte input. -/
def base64Encode (data : List Nat) : String :=
  String.mk (base64EncodeList data)

end Utils

namespace Interp

/-- A JavaScript `number | boolean` value, the element type of the arrays
handled by `interpolate` in the interpolation source file. -/
inductive JsVal where
  | num (q : ℚ)
  | bool (b : Bool)
deriving DecidableEq, Repr

/-- `interpolateNum` from the interpolation source file: numbers blend
linearly, booleans switch at `f = 0.5`, mixed types throw. -/
def interpolateNum (fromVal toVal : JsVal) (f : ℚ) : Except String JsVal :=
  match fromVal, toVal with
  | .num a, .num b => .ok (.num (a * (1 - f) + b * f))
  | .bool a, .bool b => .ok (.bool (if f < 1/2 then a else b))
  | _, _ => .error "Cannot interpolate between mixed types"

/-- The elementwise loop of `interpolate`: push each `interpolateNum` result,
propagating the first thrown error. -/
def interpolateLoop (f : ℚ) : List (JsVal × JsVal) → Except String (List JsVal)
  | [] => .ok []
  | p :: rest =>
    match interpolateNum p.1 p.2 f with
    | .error e => .error e
    | .ok v =>
      match interpolateLoop f rest with
      | .error e => .error e
      | .ok vs => .ok (v :: vs)

/-- `interpolate` from the interpolation source file: equal-length check,
then the elementwise loop over index-aligned pairs. -/
def interpolate (fromList toList : List JsVal) (f : ℚ) : Except String (List JsVal) :=
  if fromList.length ≠ toList.length then
    .error "Mismatched interpolation arguments"
  else
    interpolateLoop f (List.zip fromList toList)

/-- True exactly when one value is a number and the other a boolean
(the pairs on which `interpolateNum` throws). -/
def isMixed : JsVal → JsVal → Bool
  | .num _, .bool _ => true
  | .bool _, .num _ => true
  | _, _ => false

/-- The per-element result promised by the spec for type-matched pairs
(junk on mixed pairs, which are excluded wherever this is used). -/
def interpolateNumTotal (fromVal toVal : JsVal) (f : ℚ) : JsVal :=
  match fromVal, toVal with
  | .num a, .num b => .num (a * (1 - f) + b * f)
  | .bool a, .bool b => .bool (if f < 1/2 then a else b)
  | v, _ => v

end Interp

namespace Cubic

/-- `Cubic.calculate` from the cubic-curve source file:
`3a(1-m)²m + 3b(1-m)m² + m³`. -/
def calculate (a b m : ℚ) : ℚ :=
  3 * a * (1 - m) * (1 - m) * m + 3 * b * (1 - m) * m * m + m * m * m

/-- The bisection `while (start < end)` loop of `Cubic.getValue`.  `mid`
carries the variable that survives the loop (used by the fall-through
return); `fuel` bounds the number of iterations, `none` marking exhaustion
(a model artifact: the source imposes no bound). -/
def getValueLoop (c0 c1 c2 c3 time : ℚ) : Nat → ℚ → ℚ → ℚ → Option ℚ
  | 0, _, _, _ => none
  | fuel + 1, start, stop, mid =>
    if start < stop then
      let mid' := (start + stop) / 2
      let xEst := calculate c0 c2 mid'
      if |time - xEst| < 1/100000 then some (calculate c1 c3 mid')
      else if xEst < time then getValueLoop c0 c1 c2 c3 time fuel mid' stop mid'
      else getValueLoop c0 c1 c2 c3 time fuel start mid' mid'
    else some (calculate c1 c3 mid)

/-- `Cubic.getValue` from the cubic-curve source file: gradient extrapolation
outside `(0,1)`, bisection search inside. -/
def getValue (fuel : Nat) (curves : List ℚ) (time : ℚ) : Option ℚ :=
  let c0 := curves.getD 0 0
  let c1 := curves.getD 1 0
  let c2 := curves.getD 2 0
  let c3 := curves.getD 3 0
  if time ≤ 0 then
    let startGradient :=
      if c0 > 0 then c1 / c0
      else if c1 = 0 ∧ c2 > 0 then c3 / c2
      else 0
    some (startGradient * time)
  else if time ≥ 1 then
    let endGradient :=
      if c2 < 1 then (c3 - 1) / (c2 - 1)
      else if c2 = 1 ∧ c0 < 1 then (c1 - 1) / (c0 - 1)
      else 0
    some (1 + endGradient * (time - 1))
  else getValueLoop c0 c1 c2 c3 time fuel 0 1 0

/-- A Lipschitz constant for `calculate a b` on `[0,1]`, read off from the
monomial form `calculate a b m = 3a·m + (3b-6a)·m² + (3a-3b+1)·m³`. -/
def lipK (a b : ℚ) : ℚ :=
  3 * |a| + 2 * |3 * b - 6 * a| + 3 * |3 * a - 3 * b + 1|

/-- The invariant the bisection maintains for claim C9: the interval sits in
`[0,1]`, is nonempty, and each finite endpoint that was ever assigned from a
midpoint carries the x-estimate fact that caused the assignment. -/
def bisectInv (a b t s e : ℚ) : Prop :=
  0 ≤ s ∧ s < e ∧ e ≤ 1 ∧
  (s = 0 ∨ calculate a b s ≤ t - 1/100000) ∧
  (e = 1 ∨ t + 1/100000 ≤ calculate a b e)

end Cubic

namespace ClientTransaction

/-- `ClientTransaction.ADDITIONAL_RANDOM_NUMBER`. -/
def ADDITIONAL_RANDOM_NUMBER : Nat := 3

/-- `ClientTransaction.DEFAULT_KEYWORD`. -/
def DEFAULT_KEYWORD : String := "obfiowerehiring"

/-- The fallback row `get2DArray` substitutes whenever the document lacks the
expected animation markup. -/
def FALLBACK_ROW : List Nat := [0, 0, 0, 255, 255, 255, 120, 100, 100, 0, 0, 1]

/-- What `get2DArray` reads from one `loading-x-anim` frame element:
`none` when the frame has no nested `path` element, `some none` when the
`path` has no `d` attribute, `some (some d)` otherwise. -/
def FrameData : Type := Option (Option String)

/-- Digit-run parsing of one path segment:
`item.replace(/[^\d]+/g, ' ').trim().split(' ').filter(len>0).map(parseInt)`,
i.e. the list of maximal decimal-digit runs of the segment, each read as a
number. -/
def parseRow (s : String) : List Nat :=
  (((s.data.map (fun c => if c.isDigit then c else ' ')).asString).splitOn " ")
    |>.filter (fun tok => tok.length > 0)
    |>.map (fun tok => tok.data.foldl (fun acc c => acc * 10 + (c.toNat - 48)) 0)

/-- `ClientTransaction.get2DArray`: selects a frame by `keyBytes[5] mod
frameCount`, parses its path data into rows of integers, and substitutes
`FALLBACK_ROW` when the document shape is wrong.  Throws (`Except.error`)
only on `keyBytes.length < 6`. -/
def get2DArray (keyBytes : List Nat) (frames : List FrameData) :
    Except String (List (List Nat)) :=
  if keyBytes.length < 6 then
    .error "Invalid keyBytes: array too short"
  else if frames.length = 0 then
    .ok [FALLBACK_ROW]
  else
    let frameIndex := keyBytes.getD 5 0 % max frames.length 1
    match frames.getD frameIndex none with
    | none => .ok [FALLBACK_ROW]
    | some none => .ok [FALLBACK_ROW]
    | some (some pathData) =>
      if pathData.length < 10 then .ok [FALLBACK_ROW]
      else
        let result := (((pathData.data.drop 9).asString).splitOn "C").map parseRow
        if result.length = 0 ∨ (result.getD 0 []).length < 7 then .ok [FALLBACK_ROW]
        else .ok result

/-- One `Uint8Array` element write: stores `v mod 256` when the index is in
bounds and is silently ignored otherwise (JavaScript typed-array semantics). -/
def u8set (a : List Nat) (i v : Nat) : List Nat :=
  if i < a.length then a.set i (v % 256) else a

/-- The buffer assembly of `generateTransactionId`: allocate
`keyBytes.length + timeBytes.length + 16 + 1` zero bytes, write the random
byte at 0, then the XOR-masked key bytes, time bytes, the first 16 hash
bytes, and finally `ADDITIONAL_RANDOM_NUMBER ^ randomNum` at index
`1 + keyBytes.length + timeBytes.length + 16` — one past the end of the
allocation, so that write is dropped. -/
def assembleBytesArr (keyBytes timeBytes hashBytes : List Nat) (randomNum : Nat) :
    List Nat :=
  let arr0 := List.replicate (keyBytes.length + timeBytes.length + 16 + 1) 0
  let arr1 := u8set arr0 0 randomNum
  let arr2 := (List.range keyBytes.length).foldl
    (fun a i => u8set a (1 + i) ((keyBytes.getD i 0) ^^^ randomNum)) arr1
  let arr3 := (List.range timeBytes.length).foldl
    (fun a i => u8set a (1 + keyBytes.length + i) ((timeBytes.getD i 0) ^^^ randomNum)) arr2
  let arr4 := (List.range 16).foldl
    (fun a i => u8set a (1 + keyBytes.length + timeBytes.length + i)
      ((hashBytes.getD i 0) ^^^ randomNum)) arr3
  u8set arr4 (1 + keyBytes.length + timeBytes.length + 16)
    (ADDITIONAL_RANDOM_NUMBER ^^^ randomNum)

/-- The 4 little-endian time bytes: `(timeNow >> (i*8)) & 0xFF` under
JavaScript 32-bit coercion of the (integer) timestamp. -/
def timeNowBytes (t : ℤ) : List Nat :=
  (List.range 4).map (fun i => ((t.emod 4294967296).toNat >>> (i * 8)) &&& 255)

/-- The `timeNow = timeNow || Math.floor((Date.now() - 1682924400000) / 1000)`
defaulting step: an absent or zero (falsy) timestamp is replaced by the
clock-derived default.  `now` stands for `Date.now()`. -/
def effectiveTimeNow (timeNow : Option ℤ) (now : ℤ) : ℤ :=
  let dflt := (now - 1682924400000).fdiv 1000
  match timeNow with
  | some v => if v = 0 then dflt else v
  | none => dflt

/-- `ClientTransaction.generateTransactionId`.  `sha256` stands for
`crypto.subtle.digest('SHA-256', ...)` (a byte function of the hashed
string), `randomNum` for the `Math.floor(Math.random() * 256)` draw, `now`
for `Date.now()`; `keyBytes` and `animationKey` are the instance fields. -/
def generateTransactionId (sha256 : String → List Nat) (randomNum : Nat)
    (keyBytes : List Nat) (animationKey : String)
    (method path : String) (timeNow : Option ℤ) (now : ℤ) : Except String String :=
  if keyBytes.length = 0 then
    .error "keyBytes is undefined or empty. Make sure ClientTransaction was properly initialized."
  else
    let t := effectiveTimeNow timeNow now
    let tBytes := timeNowBytes t
    let stringToHash :=
      method ++ "!" ++ path ++ "!" ++ toString t ++ DEFAULT_KEYWORD ++ animationKey
    let hashBytes := sha256 stringToHash
    let bytesArr := assembleBytesArr keyBytes tBytes hashBytes randomNum
    .ok ((Utils.base64Encode bytesArr).data.filter (fun c => c ≠ '=')).asString

/-- `Number(x.toFixed(2))`: round to 2 decimal places, ties toward `+∞`
(the ECMAScript `toFixed` tie rule picks the larger candidate). -/
def round2 (q : ℚ) : ℚ := (⌊q * 100 + 1/2⌋ : ℚ) / 100

/-- `Math.round`: nearest integer, ties toward `+∞`. -/
def jsRound (q : ℚ) : ℤ := ⌊q + 1/2⌋

/-- `ClientTransaction.solve`: scale a 0-255 value into `[minVal, maxVal]`,
flooring when `rounding` and rounding to 2 decimals otherwise. -/
def solve (value minVal maxVal : ℚ) (rounding : Bool) : ℚ :=
  let result := value * (maxVal - minVal) / 255 + minVal
  if rounding then (⌊result⌋ : ℚ) else round2 result

/-- `convertRotationToMatrix` from the rotation source file, parameterised by
the degree-based cosine and sine primitives (`Math.cos(r·π/180)` and
`Math.sin(r·π/180)` are transcendental and have no rational embedding). -/
def convertRotationToMatrix (cosD sinD : ℚ → ℚ) (rotation : ℚ) : List ℚ :=
  [cosD rotation, -(sinD rotation), sinD rotation, cosD rotation]

/-- JavaScript `Number` view of an interpolated element; the inputs to
`animate`'s interpolations are all numbers, so the boolean branch is
unreachable there. -/
def jsNum : Interp.JsVal → ℚ
  | .num q => q
  | .bool b => if b then 1 else 0

/-- `Math.round(value).toString(16)` for a color channel (clamped to `≥ 0`
before the call): lowercase hexadecimal digits. -/
def toStringHex16 (n : ℤ) : String := (Nat.toDigits 16 n.toNat).asString

/-- The body of `ClientTransaction.animate` before its `catch`:
`Except.error` is a thrown exception (caught by `animate`), the outer `none`
marks fuel exhaustion inside the bezier loop or `floatToHex` — a model
artifact, not a behaviour of the source. -/
def animateCore (cosD sinD : ℚ → ℚ) (hexFuel bezFuel : Nat)
    (frames : List ℚ) (targetTime : ℚ) : Option (Except String String) :=
  if frames.length < 7 then some (.error "Invalid frames data") else
  let fromColor := frames.take 3 ++ [1]
  let toColor := (frames.drop 3).take 3 ++ [1]
  let fromRotation : List ℚ := [0]
  let toRotation := [solve (frames.getD 6 0) 60 360 true]
  let curveValues :=
    (frames.drop 7).mapIdx (fun i item => solve item (Utils.isOdd i) 1 false)
  if curveValues.length < 4 then
    some (.error "Insufficient curve values for cubic bezier")
  else
    match Cubic.getValue bezFuel curveValues targetTime with
    | none => none
    | some val =>
      match Interp.interpolate (fromColor.map .num) (toColor.map .num) val with
      | .error e => some (.error e)
      | .ok colorRaw =>
        let color := (colorRaw.map jsNum).map (fun v => if v > 0 then v else 0)
        match Interp.interpolate (fromRotation.map .num) (toRotation.map .num) val with
        | .error e => some (.error e)
        | .ok rotRaw =>
          let rotation := rotRaw.map jsNum
          let matrix := convertRotationToMatrix cosD sinD (rotation.getD 0 0)
          let strArr1 := color.dropLast.map (fun v => toStringHex16 (jsRound v))
          match matrix.mapM (fun value =>
            let rounded := round2 value
            let rounded2 := if rounded < 0 then -rounded else rounded
            (Utils.floatToHex rounded2 hexFuel).map (fun hexValue =>
              if hexValue.startsWith "." then "0" ++ hexValue.toLower
              else if hexValue = "" then "0" else hexValue)) with
          | none => none
          | some strArr2 =>
            let strArr := strArr1 ++ strArr2 ++ ["0", "0"]
            some (.ok (((strArr.foldl (· ++ ·) "").data.filter
              (fun c => !(c == '.' || c == '-'))).asString))

/-- `ClientTransaction.animate`: the body above with every thrown error
replaced by the fixed fallback animation key. -/
def animate (cosD sinD : ℚ → ℚ) (hexFuel bezFuel : Nat)
    (frames : List ℚ) (targetTime : ℚ) : Option String :=
  match animateCore cosD sinD hexFuel bezFuel frames targetTime with
  | none => none
  | some (.ok s) => some s
  | some (.error _) => some "1e00f00"

/-- The body of `ClientTransaction.getAnimationKey` before its `catch`.
An out-of-bounds key-byte read for the row index produces `NaN`, which makes
`arr[NaN]` undefined and the `!frameRow` check throw — modelled as the thrown
error directly.  An out-of-bounds read inside the frame-time product produces
a `NaN` target time, which the source still feeds through `animate` with
float semantics; that path has no rational embedding and is modelled as the
artifact `none`. -/
def getAnimationKeyCore (cosD sinD : ℚ → ℚ) (hexFuel bezFuel : Nat)
    (defaultRowIndex : Option Nat) (defaultKeyBytesIndices : Option (List Nat))
    (keyBytes : List Nat) (frames : List FrameData) : Option (Except String String) :=
  match get2DArray keyBytes frames with
  | .error e => some (.error e)
  | .ok arr =>
    let rowIdxByte : Option Nat :=
      match defaultRowIndex with
      | some dri => keyBytes.get? dri
      | none => keyBytes.get? 2
    match rowIdxByte with
    | none => some (.error "Invalid frame row data")
    | some b =>
      if arr.length = 0 then some (.error "No animation data found in the page")
      else
        let rowIndex := b % 16 % arr.length
        let frameTimeOpt : Option Nat :=
          match defaultKeyBytesIndices with
          | some idxs =>
            if idxs.length > 0 then
              idxs.foldl (fun acc i => do
                let a ← acc
                let kb ← keyBytes.get? i
                pure (a * (kb % 16))) (some 1)
            else do
              let k12 ← keyBytes.get? 12
              let k14 ← keyBytes.get? 14
              let k7 ← keyBytes.get? 7
              pure (k12 % 16 * (k14 % 16) * (k7 % 16))
          | none => do
            let k12 ← keyBytes.get? 12
            let k14 ← keyBytes.get? 14
            let k7 ← keyBytes.get? 7
            pure (k12 % 16 * (k14 % 16) * (k7 % 16))
        match frameTimeOpt with
        | none => none
        | some frameTime =>
          let frameRow := arr.getD rowIndex []
          if frameRow.length < 7 then some (.error "Invalid frame row data")
          else
            let targetTime := (frameTime : ℚ) / 4096
            match animate cosD sinD hexFuel bezFuel
              (frameRow.map (fun n => (n : ℚ))) targetTime with
            | none => none
            | some s => some (.ok s)

/-- `ClientTransaction.getAnimationKey`: the body above with every thrown
error replaced by the fixed fallback animation key. -/
def getAnimationKey (cosD sinD : ℚ → ℚ) (hexFuel bezFuel : Nat)
    (defaultRowIndex : Option Nat) (defaultKeyBytesIndices : Option (List Nat))
    (keyBytes : List Nat) (frames : List FrameData) : Option String :=
  match getAnimationKeyCore cosD sinD hexFuel bezFuel defaultRowIndex
    defaultKeyBytesIndices keyBytes frames with
  | none => none
  | some (.ok s) => some s
  | some (.error _) => some "1e00f00"

end ClientTransaction

/-- The condition under which `get2DArray` substitutes the fallback row (for
key byte sequences long enough to get past the length guard): no frames, a
selected frame without a path element, without path data, path data shorter
than 10 characters, or fewer than 7 integers in the first extracted row. -/
def ClientTransaction.usesFallback (keyBytes : List Nat)
    (frames : List ClientTransaction.FrameData) : Prop :=
  frames = [] ∨
    match frames.getD (keyBytes.getD 5 0 % max frames.length 1) none with
    | none => True
    | some none => True
    | some (some d) =>
      d.length < 10 ∨
        (((((d.data.drop 9).asString).splitOn "C").map
          ClientTransaction.parseRow).getD 0 []).length < 7

namespace Utils

/-- When `⌊x⌋ ≥ 1`, one division step strictly decreases the floor. -/
theorem floor_div_sixteen_lt (x : ℚ) (hx : ¬⌊x⌋ ≤ 0) : ⌊x / 16⌋ < ⌊x⌋ := by
  have hx1 : (1 : ℤ) ≤ ⌊x⌋ := by omega
  rw [Int.floor_lt]
  have h16 : x < (⌊x⌋ : ℚ) * 16 := by
    have h1 := Int.lt_floor_add_one x
    have hf : (1 : ℚ) ≤ (⌊x⌋ : ℚ) := by exact_mod_cast hx1
    nlinarith
  linarith

/-- The quotient entering the recursion is nonnegative. -/
theorem floor_div_sixteen_nonneg (x : ℚ) (hx : ¬⌊x⌋ ≤ 0) : 0 ≤ ⌊x / 16⌋ := by
  have hx1 : (1 : ℤ) ≤ ⌊x⌋ := by omega
  have hxge : (1 : ℚ) ≤ x := by
    exact_mod_cast le_trans (by exact_mod_cast hx1) (Int.floor_le x)
  rw [Int.le_floor]
  push_cast
  linarith

/-- Any two fuels at least `⌊x⌋.toNat` give the same result: the exhaustion
branch of `floatToHexIntGo` is never taken from `floatToHexIntAux`. -/
theorem floatToHexIntGo_fuel_irrelevant :
    ∀ (fuel fuel' : Nat) (x : ℚ) (acc : List Char),
      ⌊x⌋.toNat ≤ fuel → ⌊x⌋.toNat ≤ fuel' →
      floatToHexIntGo fuel x acc = floatToHexIntGo fuel' x acc := by
  intro fuel
  induction fuel with
  | zero =>
    intro fuel' x acc h h'
    have hx : ⌊x⌋ ≤ 0 := by omega
    cases fuel' <;> simp [floatToHexIntGo, hx]
  | succ n ih =>
    intro fuel' x acc h h'
    by_cases hx : ⌊x⌋ ≤ 0
    · cases fuel' <;> simp [floatToHexIntGo, hx]
    · have hlt := floor_div_sixteen_lt x hx
      have hnn := floor_div_sixteen_nonneg x hx
      have hq : ⌊((⌊x / 16⌋ : ℤ) : ℚ)⌋ = ⌊x / 16⌋ := Int.floor_intCast _
      obtain ⟨m, hm⟩ : ∃ m, fuel' = m + 1 := ⟨fuel' - 1, by omega⟩
      subst hm
      simp only [floatToHexIntGo, hx, if_neg, ite_false]
      rw [ih m _ _ (by rw [hq]; omega) (by rw [hq]; omega)]

end Utils

namespace Interp

theorem interpolateLoop_error (f : ℚ) :
    ∀ l : List (JsVal × JsVal),
      ((∃ e, interpolateLoop f l = .error e) ↔ ∃ p ∈ l, isMixed p.1 p.2 = true) := by
  intro l
  induction l with
  | nil => simp [interpolateLoop]
  | cons hd tl ih =>
    constructor
    · rintro ⟨e, he⟩
      rcases hfst : interpolateNum hd.1 hd.2 f with e' | v
      · refine ⟨hd, List.mem_cons_self _ _, ?_⟩
        rcases hd with ⟨a, b⟩
        rcases a with a | a <;> rcases b with b | b <;>
          simp_all [interpolateNum, isMixed]
      · rw [interpolateLoop, hfst] at he
        rcases hrest : interpolateLoop f tl with e'' | vs
        · obtain ⟨p, hp, hm⟩ := ih.mp ⟨e'', hrest⟩
          exact ⟨p, List.mem_cons_of_mem _ hp, hm⟩
        · rw [hrest] at he
          simp at he
    · rintro ⟨p, hp, hm⟩
      rcases List.mem_cons.mp hp with rfl | hp'
      · have herr : ∃ e, interpolateNum p.1 p.2 f = .error e := by
          rcases p with ⟨a, b⟩
          rcases a with a | a <;> rcases b with b | b <;>
            simp_all [interpolateNum, isMixed]
        obtain ⟨e, he⟩ := herr
        exact ⟨e, by rw [interpolateLoop, he]⟩
      · obtain ⟨e, he⟩ := ih.mpr ⟨p, hp', hm⟩
        rcases hfst : interpolateNum hd.1 hd.2 f with e' | v
        · exact ⟨e', by rw [interpolateLoop, hfst]⟩
        · exact ⟨e, by rw [interpolateLoop, hfst, he]⟩

theorem interpolateLoop_ok (f : ℚ) :
    ∀ (l : List (JsVal × JsVal)) (out : List JsVal),
      interpolateLoop f l = .ok out →
      out = l.map (fun p => interpolateNumTotal p.1 p.2 f) := by
  intro l
  induction l with
  | nil => intro out h; simpa [interpolateLoop] using h.symm
  | cons hd tl ih =>
    intro out h
    rcases hfst : interpolateNum hd.1 hd.2 f with e | v
    · rw [interpolateLoop, hfst] at h; exact absurd h (by simp)
    · rw [interpolateLoop, hfst] at h
      rcases hrest : interpolateLoop f tl with e | vs
      · rw [hrest] at h; exact absurd h (by simp)
      · rw [hrest] at h
        simp only [Except.ok.injEq] at h
        subst h
        have hv : v = interpolateNumTotal hd.1 hd.2 f := by
          rcases hd with ⟨a, b⟩
          rcases a with a | a <;> rcases b with b | b <;>
            simp_all [interpolateNum, interpolateNumTotal]
        rw [List.map_cons, hv, ih vs hrest]

end Interp

namespace Cubic

/-- On the identity controls `[0,0,1,1]` the x-curve and the y-curve coincide,
so every value the loop returns is an accepted x-estimate: within `1e-5` of
the requested time. -/
theorem getValueLoop_identity_close (t : ℚ) :
    ∀ (fuel : Nat) (s e m r : ℚ), s < e →
      getValueLoop 0 0 1 1 t fuel s e m = some r → |r - t| < 1/100000 := by
  intro fuel
  induction fuel with
  | zero => intro s e m r _ h; exact absurd h (by simp [getValueLoop])
  | succ n ih =>
    intro s e m r hse h
    rw [getValueLoop, if_pos hse] at h
    set mid' := (s + e) / 2 with hmid
    by_cases htol : |t - calculate 0 1 mid'| < 1/100000
    · rw [if_pos htol] at h
      simp only [Option.some.injEq] at h
      subst h
      rw [abs_sub_comm] at htol
      exact htol
    · rw [if_neg htol] at h
      have hs : s < mid' := by rw [hmid]; linarith
      have he : mid' < e := by rw [hmid]; linarith
      by_cases hlt : calculate 0 1 mid' < t
      · rw [if_pos hlt] at h
        exact ih mid' e mid' r he h
      · rw [if_neg hlt] at h
        exact ih s mid' mid' r hs h

theorem lipK_nonneg (a b : ℚ) : 0 ≤ lipK a b := by
  unfold lipK
  positivity

theorem calculate_zero (a b : ℚ) : calculate a b 0 = 0 := by
  unfold calculate; ring

theorem calculate_one (a b : ℚ) : calculate a b 1 = 1 := by
  unfold calculate; ring

/-- `calculate a b` is `lipK a b`-Lipschitz on `[0,1]`. -/
theorem calculate_lipschitz (a b x y : ℚ)
    (hx0 : 0 ≤ x) (hx1 : x ≤ 1) (hy0 : 0 ≤ y) (hy1 : y ≤ 1) :
    |calculate a b x - calculate a b y| ≤ lipK a b * |x - y| := by
  have hfact : calculate a b x - calculate a b y =
      (x - y) * (3 * a + (3 * b - 6 * a) * (x + y)
        + (3 * a - 3 * b + 1) * (x^2 + x*y + y^2)) := by
    unfold calculate; ring
  rw [hfact, abs_mul, mul_comm]
  apply mul_le_mul_of_nonneg_right _ (abs_nonneg _)
  have h1 : |3 * a + (3 * b - 6 * a) * (x + y)
      + (3 * a - 3 * b + 1) * (x^2 + x*y + y^2)| ≤
      |3 * a| + |(3 * b - 6 * a) * (x + y)|
        + |(3 * a - 3 * b + 1) * (x^2 + x*y + y^2)| :=
    (abs_add _ _).trans (by gcongr; exact abs_add _ _)
  refine h1.trans ?_
  have hsum : |x + y| ≤ 2 := by rw [abs_le]; constructor <;> linarith
  have hsq : |x^2 + x*y + y^2| ≤ 3 := by
    rw [abs_le]
    constructor <;> nlinarith
  have e1 : |(3 * b - 6 * a) * (x + y)| = |3 * b - 6 * a| * |x + y| := abs_mul _ _
  have e2 : |(3 * a - 3 * b + 1) * (x^2 + x*y + y^2)| =
      |3 * a - 3 * b + 1| * |x^2 + x*y + y^2| := abs_mul _ _
  have e3 : |(3 : ℚ) * a| = 3 * |a| := by
    rw [abs_mul]; norm_num
  rw [e1, e2, e3]
  unfold lipK
  have g1 : |3 * b - 6 * a| * |x + y| ≤ |3 * b - 6 * a| * 2 :=
    mul_le_mul_of_nonneg_left hsum (abs_nonneg _)
  have g2 : |3 * a - 3 * b + 1| * |x^2 + x*y + y^2| ≤ |3 * a - 3 * b + 1| * 3 :=
    mul_le_mul_of_nonneg_left hsq (abs_nonneg _)
  linarith

/-- When the interval is small enough relative to the Lipschitz constant, the
midpoint's x-estimate is within tolerance: the loop must return. -/
theorem bisect_small_returns (a b t s e : ℚ)
    (hInv : bisectInv a b t s e)
    (h2 : lipK a b * (e - s) < 2 * (1/100000))
    (hlo : lipK a b * (e - s) < t + 1/100000)
    (hhi : lipK a b * (e - s) < 1 - t + 1/100000) :
    |t - calculate a b ((s + e) / 2)| < 1/100000 := by
  obtain ⟨hs0, hse, he1, hsP, heP⟩ := hInv
  set mid := (s + e) / 2 with hmid
  by_contra htol
  push_neg at htol
  have hms : s < mid := by rw [hmid]; linarith
  have hme : mid < e := by rw [hmid]; linarith
  have hm0 : 0 ≤ mid := by linarith
  have hm1 : mid ≤ 1 := by linarith
  have hKnn := lipK_nonneg a b
  rcases le_abs.mp htol with hcase | hcase
  · -- x-estimate undershoots: `calculate a b mid ≤ t - tol`; compare with `e`
    have hPm : calculate a b mid ≤ t - 1/100000 := by linarith
    have hlip := calculate_lipschitz a b e mid (by linarith) he1 hm0 hm1
    have habs : |e - mid| = e - mid := abs_of_nonneg (by linarith)
    rw [habs] at hlip
    have hmono : lipK a b * (e - mid) ≤ lipK a b * (e - s) :=
      mul_le_mul_of_nonneg_left (by linarith) hKnn
    rcases heP with rfl | heP
    · have h1 : calculate a b 1 = 1 := calculate_one a b
      have hd : calculate a b 1 - calculate a b mid ≤ lipK a b * (1 - mid) :=
        (le_abs_self _).trans hlip
      rw [h1] at hd
      linarith
    · have hd : calculate a b e - calculate a b mid ≤ lipK a b * (e - mid) :=
        (le_abs_self _).trans hlip
      linarith
  · -- x-estimate overshoots: `calculate a b mid ≥ t + tol`; compare with `s`
    have hPm : t + 1/100000 ≤ calculate a b mid := by linarith
    have hlip := calculate_lipschitz a b mid s hm0 hm1 hs0 (by linarith)
    have habs : |mid - s| = mid - s := abs_of_nonneg (by linarith)
    rw [habs] at hlip
    have hmono : lipK a b * (mid - s) ≤ lipK a b * (e - s) :=
      mul_le_mul_of_nonneg_left (by linarith) hKnn
    rcases hsP with rfl | hsP
    · have h0 : calculate a b 0 = 0 := calculate_zero a b
      have hd : calculate a b mid - calculate a b 0 ≤ lipK a b * (mid - 0) :=
        (le_abs_self _).trans hlip
      rw [h0] at hd
      linarith
    · have hd : calculate a b mid - calculate a b s ≤ lipK a b * (mid - s) :=
        (le_abs_self _).trans hlip
      linarith

/-- Fuel `n+1` suffices once `lipK·width < c·2ⁿ` where `c` collects the three
smallness thresholds: the loop returns before running out. -/
theorem bisect_terminates_aux (c0 c1 c2 c3 t : ℚ) (ht0 : 0 < t) (ht1 : t < 1) :
    ∀ (n : Nat) (s e m : ℚ), bisectInv c0 c2 t s e →
      lipK c0 c2 * (e - s) <
        min (min (2 * (1/100000)) (t + 1/100000)) (1 - t + 1/100000) * 2 ^ n →
      ∃ r, getValueLoop c0 c1 c2 c3 t (n + 1) s e m = some r := by
  intro n
  induction n with
  | zero =>
    intro s e m hInv hw
    have hse := hInv.2.1
    have hw' : lipK c0 c2 * (e - s) <
        min (min (2 * (1/100000)) (t + 1/100000)) (1 - t + 1/100000) := by
      simpa using hw
    have htol : |t - calculate c0 c2 ((s + e) / 2)| < 1/100000 := by
      apply bisect_small_returns c0 c2 t s e hInv
      · exact lt_of_lt_of_le hw' (le_trans (min_le_left _ _) (min_le_left _ _))
      · exact lt_of_lt_of_le hw' (le_trans (min_le_left _ _) (min_le_right _ _))
      · exact lt_of_lt_of_le hw' (min_le_right _ _)
    refine ⟨calculate c1 c3 ((s + e) / 2), ?_⟩
    rw [getValueLoop, if_pos hse, if_pos htol]
  | succ n ih =>
    intro s e m hInv hw
    obtain ⟨hs0, hse, he1, hsP, heP⟩ := hInv
    set mid := (s + e) / 2 with hmid
    by_cases htol : |t - calculate c0 c2 mid| < 1/100000
    · exact ⟨calculate c1 c3 mid, by rw [getValueLoop, if_pos hse, if_pos htol]⟩
    · have hms : s < mid := by rw [hmid]; linarith
      have hme : mid < e := by rw [hmid]; linarith
      have hwidth : e - mid = (e - s) / 2 := by rw [hmid]; ring
      have hwidth' : mid - s = (e - s) / 2 := by rw [hmid]; ring
      push_neg at htol
      by_cases hlt : calculate c0 c2 mid < t
      · -- undershoot: `start = mid`
        have hPm : calculate c0 c2 mid ≤ t - 1/100000 := by
          rcases le_abs'.mp htol with hc | hc <;> linarith
        have hInv' : bisectInv c0 c2 t mid e :=
          ⟨by linarith, hme, he1, Or.inr hPm, heP⟩
        have hw' : lipK c0 c2 * (e - mid) <
            min (min (2 * (1/100000)) (t + 1/100000)) (1 - t + 1/100000) * 2 ^ n := by
          rw [hwidth]
          have := lipK_nonneg c0 c2
          rw [pow_succ] at hw
          nlinarith
        obtain ⟨r, hr⟩ := ih mid e mid hInv' hw'
        exact ⟨r, by rw [getValueLoop, if_pos hse, if_neg (by push_neg; exact htol),
          if_pos hlt]; exact hr⟩
      · -- overshoot: `end = mid`
        have hPm : t + 1/100000 ≤ calculate c0 c2 mid := by
          push_neg at hlt
          rcases le_abs'.mp htol with hc | hc <;> linarith
        have hInv' : bisectInv c0 c2 t s mid :=
          ⟨hs0, hms, by linarith, hsP, Or.inr hPm⟩
        have hw' : lipK c0 c2 * (mid - s) <
            min (min (2 * (1/100000)) (t + 1/100000)) (1 - t + 1/100000) * 2 ^ n := by
          rw [hwidth']
          have := lipK_nonneg c0 c2
          rw [pow_succ] at hw
          nlinarith
        obtain ⟨r, hr⟩ := ih s mid mid hInv' hw'
        exact ⟨r, by rw [getValueLoop, if_pos hse, if_neg (by push_neg; exact htol),
          if_neg hlt]; exact hr⟩

/-- Every value the loop returns (from a nonempty interval inside `[0,1]`) is a
tolerance return: `calculate c1 c3 m` for an interior midpoint `m` whose
x-estimate is within `1e-5` of `t`. -/
theorem getValueLoop_returns_tolerance (c0 c1 c2 c3 t : ℚ) :
    ∀ (fuel : Nat) (s e m r : ℚ), 0 ≤ s → s < e → e ≤ 1 →
      getValueLoop c0 c1 c2 c3 t fuel s e m = some r →
      ∃ mm, 0 < mm ∧ mm < 1 ∧ |t - calculate c0 c2 mm| < 1/100000 ∧
        r = calculate c1 c3 mm := by
  intro fuel
  induction fuel with
  | zero => intro s e m r _ _ _ h; exact absurd h (by simp [getValueLoop])
  | succ n ih =>
    intro s e m r hs0 hse he1 h
    rw [getValueLoop, if_pos hse] at h
    set mid' := (s + e) / 2 with hmid
    have hms : s < mid' := by rw [hmid]; linarith
    have hme : mid' < e := by rw [hmid]; linarith
    by_cases htol : |t - calculate c0 c2 mid'| < 1/100000
    · rw [if_pos htol] at h
      simp only [Option.some.injEq] at h
      exact ⟨mid', by linarith, by linarith, htol, h.symm⟩
    · rw [if_neg htol] at h
      by_cases hlt : calculate c0 c2 mid' < t
      · rw [if_pos hlt] at h
        exact ih mid' e mid' r (by linarith) hme he1 h
      · rw [if_neg hlt] at h
        exact ih s mid' mid' r hs0 hms (by linarith) h

end Cubic

/-- Claim C9: for every control quadruple and every time strictly between 0
and 1 the bisection loop terminates — some finite fuel makes it return — and
every iteration that does not return recurses on one half of its interval
(strict narrowing), returning only when the midpoint's x-estimate is within
the tolerance `1e-5` of `t`. -/
theorem bezier_bisection_terminates (c0 c1 c2 c3 t : ℚ)
    (ht0 : 0 < t) (ht1 : t < 1) :
    (∃ fuel r, Cubic.getValueLoop c0 c1 c2 c3 t fuel 0 1 0 = some r) ∧
    (∀ fuel s e m, s < e → ¬|t - Cubic.calculate c0 c2 ((s + e) / 2)| < 1/100000 →
      (Cubic.getValueLoop c0 c1 c2 c3 t (fuel + 1) s e m =
          Cubic.getValueLoop c0 c1 c2 c3 t fuel ((s + e) / 2) e ((s + e) / 2) ∧
        e - (s + e) / 2 = (e - s) / 2) ∨
      (Cubic.getValueLoop c0 c1 c2 c3 t (fuel + 1) s e m =
          Cubic.getValueLoop c0 c1 c2 c3 t fuel s ((s + e) / 2) ((s + e) / 2) ∧
        (s + e) / 2 - s = (e - s) / 2)) ∧
    (∀ fuel r, Cubic.getValueLoop c0 c1 c2 c3 t fuel 0 1 0 = some r →
      ∃ mm, 0 < mm ∧ mm < 1 ∧ |t - Cubic.calculate c0 c2 mm| < 1/100000 ∧
        r = Cubic.calculate c1 c3 mm) := by
  refine ⟨?_, ?_, ?_⟩
  · have hc : 0 < min (min (2 * (1/100000)) (t + 1/100000)) (1 - t + 1/100000) := by
      apply lt_min (lt_min (by norm_num) (by linarith))
      linarith
    obtain ⟨n, hn⟩ := pow_unbounded_of_one_lt
      (Cubic.lipK c0 c2 /
        min (min (2 * (1/100000)) (t + 1/100000)) (1 - t + 1/100000))
      (by norm_num : (1 : ℚ) < 2)
    have hbound : Cubic.lipK c0 c2 * (1 - 0) <
        min (min (2 * (1/100000)) (t + 1/100000)) (1 - t + 1/100000) * 2 ^ n := by
      rw [div_lt_iff₀ hc] at hn
      calc Cubic.lipK c0 c2 * (1 - 0) = Cubic.lipK c0 c2 := by ring
        _ < 2 ^ n * min (min (2 * (1/100000)) (t + 1/100000)) (1 - t + 1/100000) := hn
        _ = min (min (2 * (1/100000)) (t + 1/100000)) (1 - t + 1/100000) * 2 ^ n := by
            ring
    have hInv : Cubic.bisectInv c0 c2 t 0 1 :=
      ⟨le_refl 0, by norm_num, le_refl 1, Or.inl rfl, Or.inl rfl⟩
    obtain ⟨r, hr⟩ := Cubic.bisect_terminates_aux c0 c1 c2 c3 t ht0 ht1 n 0 1 0 hInv hbound
    exact ⟨n + 1, r, hr⟩
  · intro fuel s e m hse htol
    by_cases hlt : Cubic.calculate c0 c2 ((s + e) / 2) < t
    · left
      constructor
      · rw [Cubic.getValueLoop, if_pos hse, if_neg htol, if_pos hlt]
      · ring
    · right
      constructor
      · rw [Cubic.getValueLoop, if_pos hse, if_neg htol, if_neg hlt]
      · ring
  · intro fuel r hr
    exact Cubic.getValueLoop_returns_tolerance c0 c1 c2 c3 t fuel 0 1 0 r
      (le_refl 0) (by norm_num) (le_refl 1) hr

/-- Claim C9 witness: at controls `[0,0,1,1]` and `t = 1/2` the loop
terminates (fuel 1 already returns `1/2`). -/
theorem bezier_bisection_terminates_witness :
    (∃ fuel r, Cubic.getValueLoop 0 0 1 1 (1/2) fuel 0 1 0 = some r) ∧
    Cubic.getValueLoop 0 0 1 1 (1/2) 1 0 1 0 = some (1/2) :=
  ⟨(bezier_bisection_terminates 0 0 1 1 (1/2) (by norm_num) (by norm_num)).1,
    by decide⟩

/-- Claim C4 counterexample: at `t = 3/10` the solver on the identity controls
`[0,0,1,1]` returns a value (within fuel 30), but that value is not `3/10`:
the bisection stops at the first midpoint whose x-estimate `3m²-2m³` is within
`1e-5` of `t` and returns that estimate, which for non-dyadic `t` is never
exactly `t`. -/
theorem cubic_identity_not_exact :
    (Cubic.getValue 30 [0, 0, 1, 1] (3/10)).isSome = true ∧
    Cubic.getValue 30 [0, 0, 1, 1] (3/10) ≠ some (3/10) := by
  constructor
  · decide
  · decide

/-- Claim C4 amended: on the identity controls `[0,0,1,1]` the solver is exact
for `t ≤ 0` and `t ≥ 1` (gradient 1 extrapolation); for `0 < t < 1` any value
the bisection returns is within the termination tolerance `1e-5` of `t`, but
not in general equal to `t`. -/
theorem cubic_identity_approx (t : ℚ) (fuel : Nat) (r : ℚ)
    (h : Cubic.getValue fuel [0, 0, 1, 1] t = some r) :
    ((t ≤ 0 ∨ 1 ≤ t) → r = t) ∧
    (0 < t → t < 1 → |r - t| < 1/100000) := by
  constructor
  · intro hrange
    rcases hrange with h0 | h1
    · rw [Cubic.getValue] at h
      simp only [List.getD] at h
      rw [if_pos h0] at h
      simp only [Option.some.injEq] at h
      subst h
      norm_num
    · rw [Cubic.getValue] at h
      simp only [List.getD] at h
      by_cases h0 : t ≤ 0
      · rw [if_pos h0] at h
        simp only [Option.some.injEq] at h
        subst h
        have : t = 0 := le_antisymm h0 (by linarith)
        subst this
        norm_num
      · rw [if_neg h0, if_pos (by linarith : t ≥ 1)] at h
        simp only [Option.some.injEq] at h
        subst h
        norm_num
  · intro ht0 ht1
    rw [Cubic.getValue] at h
    simp only [List.getD] at h
    rw [if_neg (by linarith), if_neg (by linarith)] at h
    exact Cubic.getValueLoop_identity_close t fuel 0 1 0 r (by norm_num) h

/-- Claim C4 amended witness: at `t = 1/2` the first midpoint already matches
exactly, so the solver returns `1/2` and the tolerance bound holds there. -/
theorem cubic_identity_approx_witness :
    Cubic.getValue 1 [0, 0, 1, 1] (1/2) = some (1/2) ∧
    (((1:ℚ)/2 ≤ 0 ∨ 1 ≤ (1:ℚ)/2) → (1:ℚ)/2 = 1/2) ∧
    (0 < (1:ℚ)/2 → (1:ℚ)/2 < 1 → |(1:ℚ)/2 - 1/2| < 1/100000) :=
  ⟨by decide, cubic_identity_approx (1/2) 1 (1/2) (by decide)⟩

set_option maxRecDepth 8000 in
/-- Claim C1 (code bug): at concrete inputs — `keyBytes = [1,2,3,4,5,6]`,
time bytes of timestamp 100, hash bytes `0..31`, random byte 7 — the
assembled buffer is 27 bytes: `[r] ++ key^r ++ time^r ++ hash[0:16]^r` with
NO trailing `ADDITIONAL_RANDOM_NUMBER ^ r` byte.  The allocation
`keyBytes.length + timeBytes.length + 16 + 1` forgets the leading random
byte, so the final write lands one past the end and JavaScript drops it; the
token therefore encodes 27 bytes where the claim (and the code's own
"Add additional number" step) expects 28 ending in `3 ^ r`. -/
theorem generateTransactionId_drops_final_byte :
    ClientTransaction.assembleBytesArr [1, 2, 3, 4, 5, 6] [100, 0, 0, 0]
        (List.range 32) 7 =
      [7, 6, 5, 4, 3, 2, 1, 99, 7, 7, 7, 7, 6, 5, 4, 3, 2, 1, 0, 15, 14, 13, 12,
        11, 10, 9, 8] ∧
    ([7, 6, 5, 4, 3, 2, 1, 99, 7, 7, 7, 7, 6, 5, 4, 3, 2, 1, 0, 15, 14, 13, 12,
        11, 10, 9, 8] : List Nat) ≠
      [7, 6, 5, 4, 3, 2, 1, 99, 7, 7, 7, 7, 6, 5, 4, 3, 2, 1, 0, 15, 14, 13, 12,
        11, 10, 9, 8] ++ [ClientTransaction.ADDITIONAL_RANDOM_NUMBER ^^^ 7] ∧
    ClientTransaction.generateTransactionId (fun _ => List.range 32) 7
        [1, 2, 3, 4, 5, 6] "A" "GET" "/p" (some 100) 0 =
      .ok ((Utils.base64Encode
        [7, 6, 5, 4, 3, 2, 1, 99, 7, 7, 7, 7, 6, 5, 4, 3, 2, 1, 0, 15, 14, 13,
          12, 11, 10, 9, 8]).data.filter (fun c => c ≠ '=')).asString := by
  refine ⟨by rfl, by decide, by rfl⟩

/-- Claim C2: `generateTransactionId` raises exactly when the key byte
sequence is empty (never established); with non-empty key bytes it returns a
token for every method, path and timestamp. -/
theorem generateTransactionId_error_iff (sha256 : String → List Nat)
    (randomNum : Nat) (keyBytes : List Nat) (animationKey method path : String)
    (timeNow : Option ℤ) (now : ℤ) :
    ((∃ e, ClientTransaction.generateTransactionId sha256 randomNum keyBytes
        animationKey method path timeNow now = .error e) ↔ keyBytes = []) ∧
    (keyBytes = [] ∨ ∃ s, ClientTransaction.generateTransactionId sha256 randomNum
        keyBytes animationKey method path timeNow now = .ok s) := by
  unfold ClientTransaction.generateTransactionId
  by_cases h : keyBytes.length = 0
  · have hk : keyBytes = [] := List.length_eq_zero.mp h
    rw [if_pos h]
    exact ⟨⟨fun _ => hk, fun _ => ⟨_, rfl⟩⟩, Or.inl hk⟩
  · rw [if_neg h]
    constructor
    · constructor
      · rintro ⟨e, he⟩
        exact absurd he (by simp)
      · intro hk
        exact absurd (hk ▸ rfl) h
    · exact Or.inr ⟨_, rfl⟩

/-- Claim C10: an explicit timestamp argument of 0 is falsy, so it is
replaced by the clock default `floor((now - 1682924400000)/1000)` exactly as
when the timestamp is omitted — the generated token is identical, and the
effective timestamp hashed and packed is the default, not 0. -/
theorem generateTransactionId_zero_timestamp (sha256 : String → List Nat)
    (randomNum : Nat) (keyBytes : List Nat) (animationKey method path : String)
    (now : ℤ) :
    ClientTransaction.generateTransactionId sha256 randomNum keyBytes
        animationKey method path (some 0) now =
      ClientTransaction.generateTransactionId sha256 randomNum keyBytes
        animationKey method path none now ∧
    ClientTransaction.effectiveTimeNow (some 0) now =
      (now - 1682924400000).fdiv 1000 := by
  exact ⟨rfl, rfl⟩

/-- Claim C8 counterexample: with an empty key byte sequence and a document
containing no animation frames, `get2DArray` raises instead of returning the
fallback row — the claim's "for every key-byte sequence … never raises" fails
on key sequences shorter than 6 bytes. -/
theorem get2DArray_raises_on_short_key :
    ClientTransaction.get2DArray [] [] =
      .error "Invalid keyBytes: array too short" := by
  rfl

/-- Claim C8 amended: for every key byte sequence of length at least 6,
`get2DArray` never raises, and whenever the document yields no frames, a
selected frame without path element or path data (or with short path data),
or fewer than 7 integers in the first extracted row, it returns exactly the
single fixed fallback row. -/
theorem get2DArray_fallback (keyBytes : List Nat)
    (frames : List ClientTransaction.FrameData) (hkb : 6 ≤ keyBytes.length) :
    (∃ rows, ClientTransaction.get2DArray keyBytes frames = .ok rows) ∧
    (ClientTransaction.usesFallback keyBytes frames →
      ClientTransaction.get2DArray keyBytes frames =
        .ok [ClientTransaction.FALLBACK_ROW]) := by
  unfold ClientTransaction.get2DArray ClientTransaction.usesFallback
  rw [if_neg (by omega)]
  by_cases hfr : frames.length = 0
  · rw [if_pos hfr]
    exact ⟨⟨_, rfl⟩, fun _ => rfl⟩
  · rw [if_neg hfr]
    have hfrne : ¬frames = [] := by
      intro h; exact hfr (by simp [h])
    rcases hsel : frames.getD (keyBytes.getD 5 0 % max frames.length 1) none with
      _ | od
    · simp only [hsel]
      exact ⟨⟨_, rfl⟩, by simp⟩
    · rcases od with _ | d
      · simp only [hsel]
        exact ⟨⟨_, rfl⟩, by simp⟩
      · simp only [hsel]
        by_cases hlen : d.length < 10
        · rw [if_pos hlen]
          exact ⟨⟨_, rfl⟩, by simp⟩
        · rw [if_neg hlen]
          by_cases hrow :
              ((((d.data.drop 9).asString).splitOn "C").map
                ClientTransaction.parseRow).length = 0 ∨
              (((((d.data.drop 9).asString).splitOn "C").map
                ClientTransaction.parseRow).getD 0 []).length < 7
          · rw [if_pos hrow]
            exact ⟨⟨_, rfl⟩, by simp⟩
          · rw [if_neg hrow]
            refine ⟨⟨_, rfl⟩, ?_⟩
            rintro (h | h)
            · exact absurd h hfrne
            · rcases h with h | h
              · exact absurd h hlen
              · exact absurd (Or.inr h) hrow

/-- Claim C8 amended witness: six zero key bytes and a frameless document
give the fallback row. -/
theorem get2DArray_fallback_witness :
    6 ≤ ([0, 0, 0, 0, 0, 0] : List Nat).length ∧
    ClientTransaction.get2DArray [0, 0, 0, 0, 0, 0] [] =
      .ok [ClientTransaction.FALLBACK_ROW] :=
  ⟨by decide,
    (get2DArray_fallback [0, 0, 0, 0, 0, 0] [] (by decide)).2 (Or.inl rfl)⟩

/-- A character list rendered as a string is empty only if the list is. -/
theorem asString_ne_empty (y : List Char) (hy : y ≠ []) : y.asString ≠ "" := by
  intro h
  apply hy
  have h2 : y.asString.data = ("" : String).data := by rw [h]
  simpa [List.asString] using h2

/-- The string `animate` builds — the join of any strings followed by the two
pushed `"0"` literals, with `.` and `-` stripped — is never empty. -/
theorem joined_filtered_ne_empty (l : List String) :
    (((l ++ ["0", "0"]).foldl (· ++ ·) "").data.filter
      (fun c => !(c == '.' || c == '-'))).asString ≠ "" := by
  apply asString_ne_empty
  have hdata : ((l ++ ["0", "0"]).foldl (· ++ ·) "").data =
      (l.foldl (· ++ ·) "").data ++ ['0', '0'] := by
    rw [List.foldl_append]
    simp [String.data_append]
  rw [hdata, List.filter_append]
  simp

/-- `animate`'s success string is never empty: the body always pushes the two
literal `"0"` entries before joining, and the final strip removes only `.`
and `-`. -/
theorem animateCore_ok_ne_empty (cosD sinD : ℚ → ℚ) (hexFuel bezFuel : Nat)
    (frames : List ℚ) (targetTime : ℚ) (s : String)
    (h : ClientTransaction.animateCore cosD sinD hexFuel bezFuel frames targetTime =
      some (.ok s)) : s ≠ "" := by
  unfold ClientTransaction.animateCore at h
  dsimp only at h
  repeat' split at h
  all_goals first
    | (simp only [Option.some.injEq, Except.ok.injEq] at h
       subst h
       exact joined_filtered_ne_empty _)
    | exact absurd h (by simp)

/-- Whatever string `animate` yields is either the fallback or the success
string of its body. -/
theorem animate_some_cases (cosD sinD : ℚ → ℚ) (hexFuel bezFuel : Nat)
    (frames : List ℚ) (targetTime : ℚ) (s : String)
    (h : ClientTransaction.animate cosD sinD hexFuel bezFuel frames targetTime =
      some s) :
    s = "1e00f00" ∨
      ClientTransaction.animateCore cosD sinD hexFuel bezFuel frames targetTime =
        some (.ok s) := by
  unfold ClientTransaction.animate at h
  rcases hcore : ClientTransaction.animateCore cosD sinD hexFuel bezFuel frames
    targetTime with _ | exc
  · rw [hcore] at h; exact absurd h (by simp)
  · rcases exc with e | body
    · rw [hcore] at h
      simp only [Option.some.injEq] at h
      exact Or.inl h.symm
    · rw [hcore] at h
      simp only [Option.some.injEq] at h
      exact Or.inr (by rw [h])

/-- Every string `animate` yields is non-empty. -/
theorem animate_some_ne_empty (cosD sinD : ℚ → ℚ) (hexFuel bezFuel : Nat)
    (frames : List ℚ) (targetTime : ℚ) (s : String)
    (h : ClientTransaction.animate cosD sinD hexFuel bezFuel frames targetTime =
      some s) : s ≠ "" := by
  rcases animate_some_cases cosD sinD hexFuel bezFuel frames targetTime s h with
    rfl | hok
  · decide
  · exact animateCore_ok_ne_empty cosD sinD hexFuel bezFuel frames targetTime s hok

/-- A successful `getAnimationKey` body is a successful `animate` string. -/
theorem getAnimationKeyCore_ok_ne_empty (cosD sinD : ℚ → ℚ)
    (hexFuel bezFuel : Nat) (dri : Option Nat) (dkbi : Option (List Nat))
    (keyBytes : List Nat) (frames : List ClientTransaction.FrameData)
    (body : String)
    (h : ClientTransaction.getAnimationKeyCore cosD sinD hexFuel bezFuel dri dkbi
      keyBytes frames = some (.ok body)) : body ≠ "" := by
  unfold ClientTransaction.getAnimationKeyCore at h
  dsimp only at h
  repeat' split at h
  all_goals first
    | (rename_i heq
       simp only [Option.some.injEq, Except.ok.injEq] at h
       subst h
       exact animate_some_ne_empty _ _ _ _ _ _ _ heq)
    | exact absurd h (by simp)

/-- Claim C3: whenever a step of animation-key derivation fails (a thrown
error inside the body: short frame row, missing key byte for the row index,
fewer than 4 curve values, interpolation error, short key bytes, …), the
fixed fallback `"1e00f00"` is substituted; consequently every animation key
the instance can hold is a non-empty string.  (The quantification over
`cosD`/`sinD` covers every possible behaviour of the trigonometric
primitives; `hexFuel`/`bezFuel` bound the source's unbounded loops, and the
statement covers every execution the fuel suffices for.) -/
theorem animation_key_fallback_nonempty (cosD sinD : ℚ → ℚ)
    (hexFuel bezFuel : Nat) (dri : Option Nat) (dkbi : Option (List Nat))
    (keyBytes : List Nat) (frames : List ClientTransaction.FrameData) :
    (∀ e, ClientTransaction.getAnimationKeyCore cosD sinD hexFuel bezFuel dri dkbi
        keyBytes frames = some (.error e) →
      ClientTransaction.getAnimationKey cosD sinD hexFuel bezFuel dri dkbi
        keyBytes frames = some "1e00f00") ∧
    (∀ s, ClientTransaction.getAnimationKey cosD sinD hexFuel bezFuel dri dkbi
        keyBytes frames = some s → s ≠ "") := by
  constructor
  · intro e he
    unfold ClientTransaction.getAnimationKey
    rw [he]
  · intro s hs
    unfold ClientTransaction.getAnimationKey at hs
    rcases hcore : ClientTransaction.getAnimationKeyCore cosD sinD hexFuel bezFuel
      dri dkbi keyBytes frames with _ | exc
    · rw [hcore] at hs; exact absurd hs (by simp)
    · rcases exc with e | body
      · rw [hcore] at hs
        simp only [Option.some.injEq] at hs
        subst hs
        decide
      · rw [hcore] at hs
        simp only [Option.some.injEq] at hs
        subst hs
        exact getAnimationKeyCore_ok_ne_empty cosD sinD hexFuel bezFuel dri dkbi
          keyBytes frames body hcore

/-- Claim C3 witness: with an empty key byte sequence the derivation fails at
`get2DArray` and the instance holds the non-empty fallback key. -/
theorem animation_key_fallback_nonempty_witness :
    ClientTransaction.getAnimationKeyCore (fun _ => 0) (fun _ => 0) 0 0 none none
      [] [] = some (.error "Invalid keyBytes: array too short") ∧
    ClientTransaction.getAnimationKey (fun _ => 0) (fun _ => 0) 0 0 none none
      [] [] = some "1e00f00" ∧
    "1e00f00" ≠ "" :=
  ⟨by rfl,
    (animation_key_fallback_nonempty (fun _ => 0) (fun _ => 0) 0 0 none none
      [] []).1 "Invalid keyBytes: array too short" (by rfl),
    by decide⟩

/-- Claim C5: the hexadecimal float encoder satisfies the three fixed test
vectors: `floatToHex 255 = "FF"`, `floatToHex 0.5 = ".8"`, and
`floatToHex 0 = ""` (no digits are emitted when the integer quotient is 0
and the fraction is 0).  One unit of fraction fuel suffices for `0.5`;
the other two inputs have zero fraction and use no fuel. -/
theorem floatToHex_test_vectors :
    Utils.floatToHex 255 0 = some "FF" ∧
    Utils.floatToHex (1/2) 1 = some ".8" ∧
    Utils.floatToHex 0 0 = some "" := by
  refine ⟨?_, ?_, ?_⟩ <;> decide

/-- Floor of a rational divided by 16 equals integer division of its floor. -/
theorem floor_div_sixteen_eq (x : ℚ) : ⌊x / 16⌋ = ⌊x⌋ / 16 := by
  rw [Int.floor_eq_iff]
  constructor
  · have h1 : (⌊x⌋ / 16) * 16 ≤ ⌊x⌋ := by omega
    have h2 : ((⌊x⌋ / 16 : ℤ) : ℚ) * 16 ≤ (⌊x⌋ : ℚ) := by exact_mod_cast h1
    have h3 := Int.floor_le x
    linarith
  · have h1 : ⌊x⌋ + 1 ≤ (⌊x⌋ / 16 + 1) * 16 := by omega
    have h2 : ((⌊x⌋ : ℚ) + 1) ≤ ((⌊x⌋ / 16 + 1 : ℤ) : ℚ) * 16 := by exact_mod_cast h1
    have h3 := Int.lt_floor_add_one x
    push_cast at h2 ⊢
    linarith

/-- Floor of an integer cast divided by 16. -/
theorem floor_intCast_div_sixteen (n : ℤ) : ⌊((n : ℚ)) / 16⌋ = n / 16 := by
  have h := Rat.floor_intCast_div_natCast n 16
  norm_num at h
  exact h

/-- The guard-trace of the integer hex loop follows the shrinking-quotient
recurrence: the head is `⌊x⌋`, every later tested value is the floor of the
previous one divided by 16, all values before the last are positive, and the
last (the one on which the loop exits) is `≤ 0`. -/
theorem floatToHexIntGo_trace :
    ∀ (fuel : Nat) (x : ℚ) (acc : List Char), ⌊x⌋.toNat ≤ fuel →
      ((Utils.floatToHexIntGo fuel x acc).2.head? = some ⌊x⌋) ∧
      (∀ i, i + 1 < (Utils.floatToHexIntGo fuel x acc).2.length →
        (Utils.floatToHexIntGo fuel x acc).2.getD (i + 1) 0 =
          ⌊(((Utils.floatToHexIntGo fuel x acc).2.getD i 0 : ℤ) : ℚ) / 16⌋ ∧
        0 < (Utils.floatToHexIntGo fuel x acc).2.getD i 0) ∧
      (∃ q, (Utils.floatToHexIntGo fuel x acc).2.getLast? = some q ∧ q ≤ 0) := by
  intro fuel
  induction fuel with
  | zero =>
    intro x acc h
    have hx : ⌊x⌋ ≤ 0 := by omega
    refine ⟨rfl, ?_, ⟨⌊x⌋, rfl, hx⟩⟩
    intro i hi
    simp [Utils.floatToHexIntGo] at hi
  | succ n ih =>
    intro x acc h
    by_cases hx : ⌊x⌋ ≤ 0
    · refine ⟨by simp [Utils.floatToHexIntGo, hx], ?_, ⟨⌊x⌋, by simp [Utils.floatToHexIntGo, hx], hx⟩⟩
      intro i hi
      simp [Utils.floatToHexIntGo, hx] at hi
    · have hlt := Utils.floor_div_sixteen_lt x hx
      have hnn := Utils.floor_div_sixteen_nonneg x hx
      have hqfl : ⌊((⌊x / 16⌋ : ℤ) : ℚ)⌋ = ⌊x / 16⌋ := Int.floor_intCast _
      have hfuel : ⌊((⌊x / 16⌋ : ℤ) : ℚ)⌋.toNat ≤ n := by rw [hqfl]; omega
      obtain ⟨ihhead, ihchain, ihlast⟩ :=
        ih ((⌊x / 16⌋ : ℤ) : ℚ) (Utils.hexDigit ⌊x - (⌊x / 16⌋ : ℚ) * 16⌋ :: acc) hfuel
      have hgo : (Utils.floatToHexIntGo (n + 1) x acc).2 =
          ⌊x⌋ :: (Utils.floatToHexIntGo n ((⌊x / 16⌋ : ℤ) : ℚ)
            (Utils.hexDigit ⌊x - (⌊x / 16⌋ : ℚ) * 16⌋ :: acc)).2 := by
        simp only [Utils.floatToHexIntGo, hx, if_neg, ite_false]
      set qs' := (Utils.floatToHexIntGo n ((⌊x / 16⌋ : ℤ) : ℚ)
        (Utils.hexDigit ⌊x - (⌊x / 16⌋ : ℚ) * 16⌋ :: acc)).2 with hqs
      have hne : qs' ≠ [] := by
        intro hnil
        rw [hnil] at ihhead
        exact absurd ihhead (by simp)
      refine ⟨by rw [hgo]; rfl, ?_, ?_⟩
      · intro i hi
        rw [hgo]
        rcases i with _ | j
        · have h0 : qs'.getD 0 0 = ⌊x / 16⌋ := by
            rcases qs' with _ | ⟨a, l⟩
            · exact absurd rfl hne
            · simp only [List.head?_cons, Option.some.injEq, hqfl] at ihhead
              simpa using ihhead
          constructor
          · simp only [List.getD_cons_succ, List.getD_cons_zero, h0]
            rw [floor_intCast_div_sixteen, floor_div_sixteen_eq]
          · simpa using lt_of_not_le hx
        · rw [hgo] at hi
          simp only [List.getD_cons_succ]
          exact ihchain j (by simpa using hi)
      · obtain ⟨q, hql, hq0⟩ := ihlast
        refine ⟨q, ?_, hq0⟩
        rw [hgo]
        rcases qs' with _ | ⟨a, l⟩
        · exact absurd rfl hne
        · rw [List.getLast?_cons_cons]
          exact hql

/-- Claim C6 counterexample: at input 256, the quotients the loop guard tests
are `[256, 16, 1, 0]` — the shrinking chain — not the constant
`⌊256/16⌋ = 16` the claim describes; in particular the loop exits although
`⌊256/16⌋ > 0` never becomes `≤ 0`. -/
theorem floatToHex_quotients_counterexample :
    (Utils.floatToHexIntAux (256 : ℚ) []).2 = [256, 16, 1, 0] ∧
    ¬(∀ q ∈ ((Utils.floatToHexIntAux (256 : ℚ) []).2).tail, q = ⌊(256 : ℚ) / 16⌋) ∧
    0 < ⌊(256 : ℚ) / 16⌋ := by
  refine ⟨by decide, by decide, by decide⟩

/-- Claim C6 amended: the quotient tested against zero at each iteration is
`floor(x/16)` recomputed from the shrinking value `x` — reassigned to the
previous quotient each iteration, starting from the original input — and the
loop exits at the first quotient `≤ 0`. -/
theorem floatToHex_quotient_chain (x : ℚ) :
    ((Utils.floatToHexIntAux x []).2.head? = some ⌊x⌋) ∧
    (∀ i, i + 1 < (Utils.floatToHexIntAux x []).2.length →
      (Utils.floatToHexIntAux x []).2.getD (i + 1) 0 =
        ⌊(((Utils.floatToHexIntAux x []).2.getD i 0 : ℤ) : ℚ) / 16⌋ ∧
      0 < (Utils.floatToHexIntAux x []).2.getD i 0) ∧
    (∃ q, (Utils.floatToHexIntAux x []).2.getLast? = some q ∧ q ≤ 0) :=
  floatToHexIntGo_trace ⌊x⌋.toNat x [] (le_refl _)

/-- Claim C6 amended witness: at 256 the second tested quotient is the floor
of the first divided by 16 (`16 = ⌊256/16⌋`), and the first is positive. -/
theorem floatToHex_quotient_chain_witness :
    (0 + 1 < (Utils.floatToHexIntAux (256 : ℚ) []).2.length) ∧
    ((Utils.floatToHexIntAux (256 : ℚ) []).2.getD (0 + 1) 0 =
      ⌊(((Utils.floatToHexIntAux (256 : ℚ) []).2.getD 0 0 : ℤ) : ℚ) / 16⌋ ∧
    0 < (Utils.floatToHexIntAux (256 : ℚ) []).2.getD 0 0) :=
  ⟨by decide, (floatToHex_quotient_chain 256).2.1 0 (by decide)⟩

/-- Claim C7: `interpolate` fails exactly when the two lists have different
lengths or some position pairs a number with a boolean; otherwise it returns
the elementwise blend (linear for numbers, threshold-at-0.5 for booleans). -/
theorem interpolate_spec (fromList toList : List Interp.JsVal) (f : ℚ) :
    ((∃ e, Interp.interpolate fromList toList f = .error e) ↔
      (fromList.length ≠ toList.length ∨
        ∃ p ∈ List.zip fromList toList, Interp.isMixed p.1 p.2 = true)) ∧
    (∀ out, Interp.interpolate fromList toList f = .ok out →
      out = (List.zip fromList toList).map
        (fun p => Interp.interpolateNumTotal p.1 p.2 f)) := by
  constructor
  · by_cases hlen : fromList.length = toList.length
    · rw [Interp.interpolate, if_neg (by omega)]
      rw [Interp.interpolateLoop_error f (List.zip fromList toList)]
      exact ⟨Or.inr, fun h => h.resolve_left (by omega)⟩
    · rw [Interp.interpolate, if_pos hlen]
      exact ⟨fun _ => Or.inl hlen, fun _ => ⟨_, rfl⟩⟩
  · intro out h
    by_cases hlen : fromList.length = toList.length
    · rw [Interp.interpolate, if_neg (by omega)] at h
      exact Interp.interpolateLoop_ok f _ out h
    · rw [Interp.interpolate, if_pos hlen] at h
      exact absurd h (by simp)

/-- Claim C7 witness: at `[num 0, bool true]`, `[num 10, bool false]`,
`f = 0.6` the interpolation succeeds and yields `[num 6, bool false]`. -/
theorem interpolate_spec_witness :
    Interp.interpolate [.num 0, .bool true] [.num 10, .bool false] (3/5) =
      .ok [.num 6, .bool false] ∧
    [Interp.JsVal.num 6, Interp.JsVal.bool false] =
      (List.zip [Interp.JsVal.num 0, Interp.JsVal.bool true]
        [Interp.JsVal.num 10, Interp.JsVal.bool false]).map
        (fun p => Interp.interpolateNumTotal p.1 p.2 (3/5)) := by
  have h1 : Interp.interpolate [.num 0, .bool true] [.num 10, .bool false] (3/5) =
      .ok [.num 6, .bool false] := by rfl
  exact ⟨h1,
    (interpolate_spec [.num 0, .bool true] [.num 10, .bool false] (3/5)).2 _ h1⟩
